import Mathlib

/-!
# Verification of the GDD ingestion / recalculation pipeline

Shallow embedding of the core of `gdd.py`:

* the GDD recalculation engine (`recalc_gdd`, lines 577-658),
* the retry-aware remote fetcher (`fetch_day_data`, lines 752-836),
* the gap-interpolation engine (`fill_missing_data_by_gap`, lines 956-1030),
* the per-day orchestration passes of `main` (backup merge, lines 1674-1733;
  Open-Meteo fallback, lines 1743-1758).

Conventions of the embedding:

* Python floats are modelled as `ℚ` (all the arithmetic the claims are about
  is exact in the reachable value range).
* A SQLite `REAL`-or-`NULL` temperature column is `Option ℚ`; a value the
  code would fail to convert with `float(...)` is folded into `none`, since
  both are skipped by the same guard.
* The `readings` table is a `List Reading`; the primary key is `dateutc`.
  The textual `date` column is derived from `dateutc` by every writer in the
  source (`dt.isoformat() + "Z"` of the UTC timestamp), so the SQL filter
  `substr(date, 1, 10) = day` is modelled as a timestamp-range filter and
  `substr(date, 1, 4) = year` as selecting one year's rows.
* A Python-level crash inside a loop (e.g. arithmetic on `None`) makes the
  embedded operation return `none`.
-/

namespace GddPipeline

/-- One row of the `readings` table (the fields the core logic touches). -/
structure Reading where
  dateutc : Int
  tempf : Option ℚ
  gdd : ℚ
  isGenerated : Bool
  macSource : String
deriving DecidableEq, Repr

/-! ## GDD recalculation engine (`recalc_gdd`, gdd.py lines 577-658) -/

/-- Per-sample 5-minute GDD increment, from gdd.py lines 646-649:
`temp_c = (val - 32) * 5 / 9;  inc = max(0, (temp_c - BASE_TEMP_C)) / 288`
with `BASE_TEMP_C = 10`. -/
def gddIncrement (t : ℚ) : ℚ :=
  max 0 ((t - 32) * 5 / 9 - 10) / 288

/-- The running cumulative sum after processing a list of rows, starting from
`acc`: rows with a `NULL` (or unparseable) temperature are skipped, every
other row advances the sum by `gddIncrement` (gdd.py lines 638-650). -/
def accAfter (acc : ℚ) : List Reading → ℚ
  | [] => acc
  | r :: rs =>
    match r.tempf with
    | none => accAfter acc rs
    | some t => accAfter (acc + gddIncrement t) rs

/-- Replay of the recalculation loop body (gdd.py lines 638-651) over a list
of rows ordered by `dateutc`: each row with a usable temperature gets the new
running cumulative value written into its `gdd` column; skipped rows are left
untouched. -/
def recalcRows (acc : ℚ) : List Reading → List Reading
  | [] => []
  | r :: rs =>
    match r.tempf with
    | none => r :: recalcRows acc rs
    | some t => { r with gdd := acc + gddIncrement t } :: recalcRows (acc + gddIncrement t) rs

/-- The incremental-mode checkpoint query (gdd.py line 622):
`SELECT MAX(dateutc), gdd FROM readings WHERE ... AND gdd>0` — on a list
sorted by ascending `dateutc`, the row with the greatest timestamp among
those whose stored `gdd` is positive. -/
def checkpoint (rows : List Reading) : Option Reading :=
  (rows.filter fun r => 0 < r.gdd).getLast?

/-- `recalc_gdd` for one calendar year's rows (sorted by ascending
`dateutc`), gdd.py lines 613-651.  Full mode replays every row from a zero
running sum; incremental mode resumes after the checkpoint, carrying the
checkpoint row's stored `gdd` forward, and falls back to a from-zero replay
when no row has a positive `gdd`. -/
def recalc_gdd (full : Bool) (rows : List Reading) : List Reading :=
  if full then recalcRows 0 rows
  else
    match checkpoint rows with
    | none => recalcRows 0 rows
    | some c =>
      (rows.filter fun r => r.dateutc ≤ c.dateutc)
        ++ recalcRows c.gdd (rows.filter fun r => c.dateutc < r.dateutc)

/-- Modelled from the spec: `recalc_cultivar_gdd` is not present in the
source tree (only the `grapevine_gdd` table it would update is); spec §4.5
describes it as using the identical increment formula, with the running sum
for each cultivar restarting at zero at its own `biofix_date` rather than
January 1, summing only Readings at or after that date-time, independent of
calendar-year boundaries.  `biofix` is the biofix date-time as a UTC
timestamp; this is the per-row step: a row strictly before the biofix, or
one with an unusable temperature, leaves the sum alone. -/
def cultivarStep (biofix : Int) (acc : ℚ) (r : Reading) : ℚ :=
  if biofix ≤ r.dateutc then
    match r.tempf with
    | none => acc
    | some t => acc + gddIncrement t
  else acc

/-- Modelled from the spec (continued): the accumulated GDD since biofix for
one cultivar is the fold of `cultivarStep` from a zero running sum over the
whole store in timestamp order. -/
def recalc_cultivar_gdd (biofix : Int) (rows : List Reading) : ℚ :=
  rows.foldl (cultivarStep biofix) 0

/-! ## Gap-interpolation engine (`fill_missing_data_by_gap`, gdd.py 956-1030) -/

/-- Association lookup in the `available` dictionary (keyed by snapped grid
timestamp, value is the possibly-`NULL` temperature of the first row snapped
into that slot). -/
def alookup : List (Int × Option ℚ) → Int → Option (Option ℚ)
  | [], _ => none
  | kv :: rest, k => if kv.1 = k then some kv.2 else alookup rest k

/-- First row of the store with the given `dateutc`
(`SELECT ... WHERE dateutc = ?` / `fetchone`). -/
def lookupStore : List Reading → Int → Option Reading
  | [], _ => none
  | r :: rest, ts => if r.dateutc = ts then some r else lookupStore rest ts

/-- Snapping of a timestamp to its 5-minute grid slot (gdd.py line 998):
`snapped = expected_start + ((ts - expected_start) // 300) * 300`.
Integer division: the rows being snapped satisfy `dayStart ≤ ts`, where
Lean's `Int` division agrees with Python's floor division. -/
def snap (dayStart ts : Int) : Int :=
  dayStart + ((ts - dayStart) / 300) * 300

/-- The day's rows (`SELECT dateutc, tempf FROM readings WHERE
substr(date, 1, 10) = ? ORDER BY dateutc ASC`), as the timestamp-range
filter justified in the module header; the order of a sorted store is
preserved by `filter`. -/
def dayRows (dayStart : Int) (store : List Reading) : List Reading :=
  store.filter fun r => dayStart ≤ r.dateutc ∧ r.dateutc < dayStart + 86400

/-- The `available` dictionary built at gdd.py lines 995-1000: for each row
in order, insert its snapped timestamp if absent (first-seen value wins). -/
def buildAvailable (dayStart : Int) (rows : List Reading) : List (Int × Option ℚ) :=
  rows.foldl
    (fun acc r =>
      let s := snap dayStart r.dateutc
      if (alookup acc s).isSome then acc else acc ++ [(s, r.tempf)])
    []

/-- The expected 288-point grid (gdd.py lines 979-981):
`range(expected_start, expected_start + 287*300 + 1, 300)`. -/
def expectedPoints (dayStart : Int) : List Int :=
  (List.range 288).map fun i : Nat => dayStart + 300 * (i : Int)

/-- `max(prev_points)` over the available keys below `point`
(gdd.py lines 1007, 1010). -/
def maxBelow (keys : List Int) (point : Int) : Option Int :=
  (keys.filter fun p => p < point).max?

/-- `min(next_points)` over the available keys above `point`
(gdd.py lines 1008, 1011). -/
def minAbove (keys : List Int) (point : Int) : Option Int :=
  (keys.filter fun p => point < p).min?

/-- Round-half-to-even to an integer, the rounding mode of Python's
`round`. -/
def roundHalfEven (x : ℚ) : Int :=
  if x - ⌊x⌋ < 1 / 2 then ⌊x⌋
  else if 1 / 2 < x - ⌊x⌋ then ⌊x⌋ + 1
  else if ⌊x⌋ % 2 = 0 then ⌊x⌋ else ⌊x⌋ + 1

/-- Python's `round(x, 1)`: one-decimal rounding. -/
def pyRound1 (x : ℚ) : ℚ :=
  (roundHalfEven (10 * x) : ℚ) / 10

/-- The interpolation formula of gdd.py lines 1014-1015:
`round(temp_prev + (point - p_prev)/(p_next - p_prev) * (temp_next - temp_prev), 1)`. -/
def interpValue (pPrev pNext point : Int) (tPrev tNext : ℚ) : ℚ :=
  pyRound1 (tPrev + ((point : ℚ) - pPrev) / ((pNext : ℚ) - pPrev) * (tNext - tPrev))

/-- Outcome of the per-slot branch (gdd.py lines 1004-1021). -/
inductive SlotResult where
  /-- The slot already has an available value, or has no available neighbour
  on either side: no row is synthesized. -/
  | skip : SlotResult
  /-- The arithmetic (or the `{...:.1f}` log formatting) would run on a
  `None` temperature: an uncaught `TypeError`. -/
  | crash : SlotResult
  /-- A synthetic temperature is produced for the slot. -/
  | val (t : ℚ) : SlotResult
deriving DecidableEq, Repr

/-- The temperature stored under an available key. -/
def getTemp (avail : List (Int × Option ℚ)) (p : Int) : Option ℚ :=
  (alookup avail p).join

/-- One iteration of the slot loop (gdd.py lines 1004-1021). -/
def slotResult (avail : List (Int × Option ℚ)) (point : Int) : SlotResult :=
  if (alookup avail point).isSome then .skip
  else
    let keys := avail.map Prod.fst
    match maxBelow keys point, minAbove keys point with
    | some pp, some pn =>
      match getTemp avail pp, getTemp avail pn with
      | some tp, some tn => .val (interpValue pp pn point tp tn)
      | _, _ => .crash
    | some pp, none =>
      match getTemp avail pp with
      | some tp => .val tp
      | none => .crash
    | none, some pn =>
      match getTemp avail pn with
      | some tn => .val tn
      | none => .crash
    | none, none => .skip

/-- The synthetic rows produced by one pass of the slot loop over the
expected grid; `none` models the loop crashing on a `None` temperature. -/
def fillInserts (avail : List (Int × Option ℚ)) : List Int → Option (List (Int × ℚ))
  | [] => some []
  | p :: ps =>
    match slotResult avail p with
    | .skip => fillInserts avail ps
    | .crash => none
    | .val t => (fillInserts avail ps).map fun rest => (p, t) :: rest

/-- The row written for a synthesized slot (gdd.py lines 1024-1028):
`INSERT OR REPLACE ... VALUES (?, ?, ?, 0, 0, 0, 1, "INTERP")`. -/
def mkInterp (ts : Int) (t : ℚ) : Reading :=
  ⟨ts, some t, 0, true, "INTERP"⟩

/-- `INSERT OR REPLACE` keyed on `dateutc`. -/
def insertOrReplace (store : List Reading) (row : Int × ℚ) : List Reading :=
  if store.any fun r => r.dateutc = row.1 then
    store.map fun r => if r.dateutc = row.1 then mkInterp row.1 row.2 else r
  else store ++ [mkInterp row.1 row.2]

/-- `fill_missing_data_by_gap` (gdd.py lines 956-1030) as a store
transformer; returns `none` when the Python loop would crash on a `None`
temperature. -/
def fill_missing_data_by_gap (dayStart : Int) (store : List Reading) : Option (List Reading) :=
  let rows := dayRows dayStart store
  if rows = [] then some store
  else
    let avail := buildAvailable dayStart rows
    match fillInserts avail (expectedPoints dayStart) with
    | none => none
    | some ins => some (ins.foldl insertOrReplace store)

/-! ## Retry-aware remote fetcher (`fetch_day_data`, gdd.py 752-836) -/

/-- A `Retry-After` header value as the code distinguishes them
(gdd.py lines 795-806): an integer-second count accepted by `int(...)`, an
HTTP-date (modelled by its signed distance in seconds from `now`), or a
string both parses reject. -/
inductive RetryAfterValue where
  | numeric (n : Int) : RetryAfterValue
  | httpDate (secondsFromNow : ℚ) : RetryAfterValue
  | malformed : RetryAfterValue
deriving DecidableEq, Repr

/-- One observable answer to the HTTP GET: a network-level exception, or a
response with a status code and an optional `Retry-After` header. -/
inductive FetchResponse where
  | netError : FetchResponse
  | status (code : Nat) (retryAfter : Option RetryAfterValue) : FetchResponse
deriving DecidableEq, Repr

/-- What one loop iteration of `fetch_day_data` does with a response:
return `None`, return the parsed body, or sleep `delay` seconds and retry. -/
inductive FetchOutcome where
  | terminalNone : FetchOutcome
  | success : FetchOutcome
  | retry (delay : ℚ) : FetchOutcome
deriving DecidableEq, Repr

/-- The delay computed from a present `Retry-After` header
(gdd.py lines 796-806); a value neither `int(...)` nor
`parsedate_to_datetime` accepts falls back to the fixed retry interval. -/
def raDelay (retrySleepTime : ℚ) : RetryAfterValue → ℚ
  | .numeric n => (n : ℚ)
  | .httpDate s => s
  | .malformed => retrySleepTime

/-- One iteration of the `while True` loop of `fetch_day_data`
(gdd.py lines 776-836), parameterised by the configured
`RETRY_SLEEP_TIME`.  The branch order mirrors the source: network error,
404, 401/403, 503 (with the 30-second ceiling applied only when a
`Retry-After` header is present), 429, other 5xx, `raise_for_status` (4xx),
and finally `response.json()`. -/
def fetchStep (retrySleepTime : ℚ) : FetchResponse → FetchOutcome
  | .netError => .retry retrySleepTime
  | .status code ra =>
    if code = 404 then .terminalNone
    else if code = 401 ∨ code = 403 then .terminalNone
    else if code = 503 then
      match ra with
      | some v =>
        if 30 < raDelay retrySleepTime v then .terminalNone
        else .retry (raDelay retrySleepTime v)
      | none => .retry retrySleepTime
    else if code = 429 then .retry retrySleepTime
    else if 500 ≤ code then .retry retrySleepTime
    else if 400 ≤ code then .retry retrySleepTime
    else .success

/-- Running the fetch loop against a finite trace of responses: `some false`
models `return None`, `some true` models returning the parsed body, and
`none` means the trace was exhausted with the loop still retrying. -/
def fetchRun (retrySleepTime : ℚ) : List FetchResponse → Option Bool
  | [] => none
  | resp :: rest =>
    match fetchStep retrySleepTime resp with
    | .terminalNone => some false
    | .success => some true
    | .retry _ => fetchRun retrySleepTime rest

/-! ## Orchestrator passes of `main` (gdd.py 1674-1761) -/

/-- One backup-station reading applied to the store (gdd.py lines
1687-1732): insert when no row exists at the timestamp; when a row exists
with a `NULL` temperature, update it in place (the `UPDATE` rewrites the
telemetry fields and `mac_source`, and leaves `gdd` alone); otherwise do
nothing. -/
def backupMergeOne (store : List Reading) (b : Int × Option ℚ) : List Reading :=
  match lookupStore store b.1 with
  | none => store ++ [⟨b.1, b.2, 0, false, "BACKUP"⟩]
  | some r =>
    if r.tempf = none then
      store.map fun r' =>
        if r'.dateutc = b.1 then ⟨b.1, b.2, r'.gdd, false, "BACKUP"⟩ else r'
    else store

/-- The backup pass over the fetched backup-station readings. -/
def backupMerge (store : List Reading) (bs : List (Int × Option ℚ)) : List Reading :=
  bs.foldl backupMergeOne store

/-- The Open-Meteo fallback block of `main` (gdd.py lines 1743-1758): the
loop over the fetched rows skips null temperatures, rounds the value and
computes a timestamp, but executes no SQL — the comment at line 1758 reads
`Here you may insert fallback data if desired.` — so the store is left
unchanged. -/
def openMeteoFallback (store : List Reading) (df : List (Int × Option ℚ)) : List Reading :=
  df.foldl (fun s _ => s) store

/-- Count of the day's rows with a non-null temperature
(`SELECT COUNT(*) ... WHERE substr(date,1,10)=? AND tempf IS NOT NULL`,
gdd.py line 1676). -/
def validCount (dayStart : Int) (store : List Reading) : Nat :=
  ((dayRows dayStart store).filter fun r => r.tempf ≠ none).length

/-- The Open-Meteo fallback guarded by the completeness threshold
(gdd.py line 1744: `if valid_count < 287`). -/
def openMeteoPhase (dayStart : Int) (store : List Reading)
    (df : List (Int × Option ℚ)) : List Reading :=
  if validCount dayStart store < 287 then openMeteoFallback store df else store

/-! ## Helper lemmas -/

theorem gddIncrement_nonneg (t : ℚ) : 0 ≤ gddIncrement t :=
  div_nonneg (le_max_left _ _) (by norm_num)

theorem gddIncrement_eq_zero_of_le (t : ℚ) (h : t ≤ 50) : gddIncrement t = 0 := by
  have hc : (t - 32) * 5 / 9 - 10 ≤ 0 := by linarith
  simp [gddIncrement, max_eq_left hc]

theorem recalc_cultivar_aux (biofix : Int) (rows : List Reading) (acc : ℚ) :
    rows.foldl (cultivarStep biofix) acc =
      accAfter acc (rows.filter fun r => biofix ≤ r.dateutc) := by
  induction rows generalizing acc with
  | nil => simp [accAfter]
  | cons r rs ih =>
    rw [List.foldl_cons]
    by_cases hb : biofix ≤ r.dateutc
    · have hf : List.filter (fun x => decide (biofix ≤ x.dateutc)) (r :: rs)
          = r :: List.filter (fun x => decide (biofix ≤ x.dateutc)) rs := by
        simp [List.filter_cons, hb]
      rw [hf]
      cases ht : r.tempf with
      | none =>
        simp only [accAfter, ht, cultivarStep, if_pos hb]
        exact ih acc
      | some t =>
        simp only [accAfter, ht, cultivarStep, if_pos hb]
        exact ih (acc + gddIncrement t)
    · have hf : List.filter (fun x => decide (biofix ≤ x.dateutc)) (r :: rs)
          = List.filter (fun x => decide (biofix ≤ x.dateutc)) rs := by
        simp [List.filter_cons, hb]
      rw [hf]
      simp only [cultivarStep, if_neg hb]
      exact ih acc

theorem roundHalfEven_intCast (k : Int) : roundHalfEven (k : ℚ) = k := by
  simp [roundHalfEven]

theorem pyRound1_tenth (k : Int) : pyRound1 ((k : ℚ) / 10) = (k : ℚ) / 10 := by
  have h10 : (10 : ℚ) * ((k : ℚ) / 10) = (k : ℚ) := by ring
  simp [pyRound1, h10, roundHalfEven_intCast]

/-! ## Claim theorems -/

/-- C5: for every temperature `t` (°F) the per-sample GDD increment equals
`max(0, ((t − 32) × 5/9) − 10) / 288`; it is nonnegative for all `t` and
zero for every `t ≤ 50`; and a Reading whose temperature is null (or
unparseable, folded into `none` by the embedding) is skipped without its
`gdd` being rewritten and without advancing the running cumulative sum. -/
theorem c5_increment_formula :
    (∀ t : ℚ, gddIncrement t = max 0 ((t - 32) * 5 / 9 - 10) / 288)
    ∧ (∀ t : ℚ, 0 ≤ gddIncrement t)
    ∧ (∀ t : ℚ, t ≤ 50 → gddIncrement t = 0)
    ∧ (∀ (acc : ℚ) (r : Reading) (rs : List Reading), r.tempf = none →
        recalcRows acc (r :: rs) = r :: recalcRows acc rs
          ∧ accAfter acc (r :: rs) = accAfter acc rs) :=
  ⟨fun _ => rfl, gddIncrement_nonneg, gddIncrement_eq_zero_of_le,
    fun acc r rs h => ⟨by simp [recalcRows, h], by simp [accAfter, h]⟩⟩

/-- Witness for C5 at concrete inputs: `t = 40 ≤ 50` gives a zero increment,
and a null-temperature row is passed over unchanged. -/
theorem c5_increment_formula_witness :
    gddIncrement 40 = 0
      ∧ recalcRows 3 [⟨5, none, 7, false, "X"⟩] = [⟨5, none, 7, false, "X"⟩] := by
  refine ⟨c5_increment_formula.2.2.1 40 (by norm_num), ?_⟩
  have h := (c5_increment_formula.2.2.2 3 ⟨5, none, 7, false, "X"⟩ [] rfl).1
  exact h.trans (by simp [recalcRows])

/-- C9 (spec-modelled, `recalc_cultivar_gdd` is absent from `src/`): the
per-cultivar recalculation applies the identical per-sample accumulation
(`accAfter`, the running-sum function of `recalc_gdd`), restarts the sum at
zero at the cultivar's own biofix date-time, sums exactly the Readings whose
timestamp is at or after the biofix, and — being a single uninterrupted fold
over the whole store — is independent of calendar-year boundaries (no
per-year reset). -/
theorem c9_cultivar_recalc_from_biofix :
    ∀ (biofix : Int) (rows : List Reading),
      recalc_cultivar_gdd biofix rows =
        accAfter 0 (rows.filter fun r => biofix ≤ r.dateutc) :=
  fun biofix rows => recalc_cultivar_aux biofix rows 0

set_option maxRecDepth 1000000 in
/-- C7 counterexample: interpolating the slot at the exact midpoint of the
anchors `(0, 70.0)` and `(600, 70.1)` stores `70.0` (the code rounds the
interpolated value to one decimal, gdd.py line 1015), not the exact midpoint
`70.05`. -/
theorem c7_counterexample :
    ((fill_missing_data_by_gap 0
          [⟨0, some 70, 0, false, "A"⟩, ⟨600, some (701 / 10), 0, false, "A"⟩]).bind
        fun res => (lookupStore res 300).map Reading.tempf) = some (some 70)
      ∧ (70 : ℚ) ≠ (70 + 701 / 10) / 2 := by
  constructor
  · with_unfolding_all decide
  · norm_num

/-- C7 (amended): interpolating a missing grid slot located exactly at the
midpoint `(t1 + t2) / 2` of two anchors returns the midpoint value
`(v1 + v2) / 2` **rounded to one decimal**; in particular it returns
`(v1 + v2) / 2` exactly whenever that midpoint is a multiple of `1/10`. -/
theorem c7_midpoint_interpolation (t1 t2 : Int) (v1 v2 : ℚ)
    (hlt : t1 < t2) (hdvd : 2 ∣ t1 + t2) :
    interpValue t1 t2 ((t1 + t2) / 2) v1 v2 = pyRound1 ((v1 + v2) / 2)
      ∧ ((∃ k : Int, (v1 + v2) / 2 = (k : ℚ) / 10) →
          interpValue t1 t2 ((t1 + t2) / 2) v1 v2 = (v1 + v2) / 2) := by
  have hmid : (((t1 + t2) / 2 : Int) : ℚ) = ((t1 : ℚ) + (t2 : ℚ)) / 2 := by
    obtain ⟨m, hm⟩ := hdvd
    have h2 : (t1 + t2) / 2 = m := by omega
    rw [h2]
    have hq : (t1 : ℚ) + (t2 : ℚ) = 2 * (m : ℚ) := by exact_mod_cast hm
    rw [hq]
    ring
  have hne : (t2 : ℚ) - (t1 : ℚ) ≠ 0 := by
    have : (t1 : ℚ) < (t2 : ℚ) := by exact_mod_cast hlt
    linarith
  have harg : v1 + ((((t1 + t2) / 2 : Int) : ℚ) - (t1 : ℚ)) / ((t2 : ℚ) - (t1 : ℚ))
      * (v2 - v1) = (v1 + v2) / 2 := by
    rw [hmid]
    field_simp
    ring
  have hval : interpValue t1 t2 ((t1 + t2) / 2) v1 v2 = pyRound1 ((v1 + v2) / 2) := by
    unfold interpValue
    rw [harg]
  refine ⟨hval, fun ⟨k, hk⟩ => ?_⟩
  rw [hval, hk, pyRound1_tenth]

/-- Witness for C7 (amended): anchors `(0, 60)` and `(600, 80)`; the slot at
`300` receives exactly `70 = (60 + 80) / 2`. -/
theorem c7_midpoint_interpolation_witness :
    interpValue 0 600 ((0 + 600) / 2) 60 80 = (60 + 80) / 2 :=
  (c7_midpoint_interpolation 0 600 60 80 (by norm_num) (by norm_num)).2
    ⟨700, by norm_num⟩

/-- C2 counterexample: with the fixed retry interval configured to 45
seconds, a `503` response **without** a `Retry-After` header makes
`fetch_day_data` sleep 45 seconds and retry (gdd.py lines 814-817) — the
claim demands that the 45-second delay, exceeding the 30-second ceiling,
terminate the fetch with `None`.  (Additionally a `304` response returns the
parsed body rather than retrying, since `raise_for_status` only raises for
status ≥ 400, while the claim classes every non-2xx as a retried failure.) -/
theorem c2_counterexample :
    fetchStep 45 (.status 503 none) = .retry 45
      ∧ fetchStep 45 (.status 503 none) ≠ .terminalNone
      ∧ (45 : ℚ) > 30
      ∧ fetchStep 45 (.status 304 none) = .success := by
  refine ⟨by with_unfolding_all decide, by with_unfolding_all decide, by norm_num,
    by with_unfolding_all decide⟩

/-- C2 (amended): `fetch_day_data` returns `None` exactly for a `404`, a
`401` or `403` (each on the first such response, with no retry), or a `503`
whose `Retry-After` header is **present** and whose delay — the numeric
seconds or HTTP-date value, or the fixed retry interval when the header is
present but unparseable — exceeds the 30-second ceiling.  A `503` with no
`Retry-After` header always sleeps the fixed retry interval and retries,
with no ceiling applied.  Every other failure (429, other 5xx, other 4xx,
network error) sleeps and retries with no upper bound on the number of
retries, and any other response below status 400 returns the parsed body. -/
theorem c2_terminal_characterization (retrySleepTime : ℚ) :
    (∀ (code : Nat) (ra : Option RetryAfterValue),
      fetchStep retrySleepTime (.status code ra) = .terminalNone ↔
        code = 404 ∨ code = 401 ∨ code = 403 ∨
          (code = 503 ∧ ∃ v, ra = some v ∧ 30 < raDelay retrySleepTime v))
    ∧ fetchStep retrySleepTime .netError = .retry retrySleepTime
    ∧ (∀ trace : List FetchResponse,
        (∀ resp ∈ trace, ∃ d, fetchStep retrySleepTime resp = .retry d) →
          fetchRun retrySleepTime trace = none) := by
  refine ⟨?_, rfl, ?_⟩
  · intro code ra
    constructor
    · intro h
      simp only [fetchStep] at h
      split_ifs at h with h404 h4x h503 h429 h5xx h4xx
      · exact Or.inl h404
      · rcases h4x with h401 | h403
        · exact Or.inr (Or.inl h401)
        · exact Or.inr (Or.inr (Or.inl h403))
      · cases ra with
        | none => simp at h
        | some v =>
          simp only at h
          by_cases hd : 30 < raDelay retrySleepTime v
          · exact Or.inr (Or.inr (Or.inr ⟨h503, v, rfl, hd⟩))
          · rw [if_neg hd] at h
            exact absurd h (by simp)
    · intro h
      rcases h with h404 | h401 | h403 | ⟨h503, v, hra, hd⟩
      · simp [fetchStep, h404]
      · simp [fetchStep, h401]
      · simp [fetchStep, h403]
      · subst hra
        simp [fetchStep, h503, if_pos hd]
  · intro trace h
    induction trace with
    | nil => rfl
    | cons resp rest ih =>
      obtain ⟨d, hd⟩ := h resp (List.mem_cons_self resp rest)
      simp only [fetchRun, hd]
      exact ih fun r hr => h r (List.mem_cons_of_mem resp hr)

/-- Witness for C2 (amended) at concrete inputs: a trace consisting of a
single `429` response leaves the loop still retrying, and a `404` is
terminal. -/
theorem c2_terminal_characterization_witness :
    fetchRun 5 [.status 429 none] = none
      ∧ fetchStep 5 (.status 404 none) = .terminalNone := by
  refine ⟨(c2_terminal_characterization 5).2.2 [.status 429 none] ?_, ?_⟩
  · intro resp hresp
    have h : resp = .status 429 none := by
      simpa using hresp
    exact ⟨5, by rw [h]; with_unfolding_all decide⟩
  · exact ((c2_terminal_characterization 5).1 404 none).2 (Or.inl rfl)

theorem foldl_const_store (df : List (Int × Option ℚ)) (store : List Reading) :
    df.foldl (fun s _ => s) store = store := by
  induction df generalizing store with
  | nil => rfl
  | cons b bs ih => exact ih store

theorem alookup_isSome_iff_mem_keys (l : List (Int × Option ℚ)) (p : Int) :
    (alookup l p).isSome ↔ p ∈ l.map Prod.fst := by
  induction l with
  | nil => simp [alookup]
  | cons kv rest ih =>
    by_cases h : kv.1 = p
    · simp [alookup, h]
    · simp only [alookup, if_neg h, List.map_cons, List.mem_cons, ih]
      exact ⟨Or.inr, fun hor => hor.resolve_left fun hp => h hp.symm⟩

theorem alookup_eq_some_mem (l : List (Int × Option ℚ)) (p : Int) (v : Option ℚ)
    (h : alookup l p = some v) : (p, v) ∈ l := by
  induction l with
  | nil => simp [alookup] at h
  | cons kv rest ih =>
    by_cases hk : kv.1 = p
    · rw [alookup, if_pos hk] at h
      obtain rfl : kv.2 = v := Option.some.inj h
      have hkv : kv = (p, kv.2) := Prod.ext hk rfl
      rw [← hkv]
      exact List.mem_cons_self kv rest
    · rw [alookup, if_neg hk] at h
      exact List.mem_cons_of_mem kv (ih h)

theorem alookup_append_singleton (l : List (Int × Option ℚ)) (s p : Int) (v : Option ℚ) :
    (alookup (l ++ [(s, v)]) p).isSome ↔ (alookup l p).isSome ∨ s = p := by
  induction l with
  | nil => simp [alookup]
  | cons kv rest ih =>
    by_cases h : kv.1 = p
    · simp [alookup, h]
    · simp only [List.cons_append, alookup, if_neg h]
      exact ih

theorem buildAvailable_isSome_iff (dayStart : Int) (rows : List Reading) (p : Int) :
    (alookup (buildAvailable dayStart rows) p).isSome ↔
      ∃ r ∈ rows, snap dayStart r.dateutc = p := by
  suffices h : ∀ (rows : List Reading) (acc : List (Int × Option ℚ)),
      (alookup (rows.foldl
          (fun acc r =>
            let s := snap dayStart r.dateutc
            if (alookup acc s).isSome then acc else acc ++ [(s, r.tempf)]) acc) p).isSome ↔
        (alookup acc p).isSome ∨ ∃ r ∈ rows, snap dayStart r.dateutc = p by
    rw [buildAvailable, h rows []]
    simp [alookup]
  intro rows
  induction rows with
  | nil => simp
  | cons r rs ih =>
    intro acc
    rw [List.foldl_cons, ih]
    simp only
    by_cases hs : (alookup acc (snap dayStart r.dateutc)).isSome
    · rw [if_pos hs]
      constructor
      · rintro (h | ⟨x, hx, hxp⟩)
        · exact Or.inl h
        · exact Or.inr ⟨x, List.mem_cons_of_mem r hx, hxp⟩
      · rintro (h | ⟨x, hx, hxp⟩)
        · exact Or.inl h
        · rcases List.mem_cons.mp hx with rfl | hx
          · exact Or.inl (hxp ▸ hs)
          · exact Or.inr ⟨x, hx, hxp⟩
    · rw [if_neg hs, alookup_append_singleton]
      constructor
      · rintro ((h | h) | h)
        · exact Or.inl h
        · exact Or.inr ⟨r, List.mem_cons_self r rs, h⟩
        · obtain ⟨x, hx, hxp⟩ := h
          exact Or.inr ⟨x, List.mem_cons_of_mem r hx, hxp⟩
      · rintro (h | ⟨x, hx, hxp⟩)
        · exact Or.inl (Or.inl h)
        · rcases List.mem_cons.mp hx with rfl | hx
          · exact Or.inl (Or.inr hxp)
          · exact Or.inr ⟨x, hx, hxp⟩

/-- C8 (the code evaluated at the failing input): when a day still has fewer
than 287 valid readings, the Open-Meteo fallback block of `main`
(gdd.py lines 1743-1758) iterates over the fetched hourly values but inserts
nothing — the store is returned unchanged, and a fetched value at an absent
timestamp still has no row afterwards — where the claim (and spec §4.4 step
3 and `main`'s own docstring, "Open-Meteo data integration when both primary
and backup sources are insufficient") requires the fetched values to be
merged insert-if-absent. -/
theorem c8_openmeteo_fallback_discards_data :
    (∀ (dayStart : Int) (store : List Reading) (df : List (Int × Option ℚ)),
        openMeteoPhase dayStart store df = store)
    ∧ validCount 0 ([] : List Reading) < 287
    ∧ openMeteoPhase 0 [] [(0, some 50)] = []
    ∧ lookupStore (openMeteoPhase 0 [] [(0, some 50)]) 0 = none := by
  have hid : ∀ (dayStart : Int) (store : List Reading) (df : List (Int × Option ℚ)),
      openMeteoPhase dayStart store df = store := by
    intro dayStart store df
    unfold openMeteoPhase openMeteoFallback
    split_ifs
    · exact foldl_const_store df store
    · rfl
  refine ⟨hid, by norm_num [validCount, dayRows], hid 0 [] [(0, some 50)], ?_⟩
  rw [hid 0 [] [(0, some 50)]]
  rfl

theorem slotResult_skip_of_isSome (avail : List (Int × Option ℚ)) (p : Int)
    (h : (alookup avail p).isSome) : slotResult avail p = .skip := by
  unfold slotResult
  rw [if_pos h]

theorem fillInserts_all_avail (avail : List (Int × Option ℚ)) (points : List Int)
    (h : ∀ p ∈ points, (alookup avail p).isSome) :
    fillInserts avail points = some [] := by
  induction points with
  | nil => rfl
  | cons p ps ih =>
    rw [fillInserts, slotResult_skip_of_isSome avail p (h p (List.mem_cons_self p ps))]
    exact ih fun q hq => h q (List.mem_cons_of_mem p hq)

/-- C6: on a day whose 288-slot 5-minute grid is already complete — every
expected grid point has an available value after snapping — re-running
`fill_missing_data_by_gap` inserts zero new rows: the store is returned
unchanged. -/
theorem c6_fill_idempotent_on_complete_day (dayStart : Int) (store : List Reading)
    (h : ∀ p ∈ expectedPoints dayStart,
        (alookup (buildAvailable dayStart (dayRows dayStart store)) p).isSome) :
    fill_missing_data_by_gap dayStart store = some store := by
  unfold fill_missing_data_by_gap
  by_cases hrows : dayRows dayStart store = []
  · rw [if_pos hrows]
  · rw [if_neg hrows]
    show (match fillInserts (buildAvailable dayStart (dayRows dayStart store))
        (expectedPoints dayStart) with
      | none => none
      | some ins => some (ins.foldl insertOrReplace store)) = some store
    rw [fillInserts_all_avail _ _ h]
    rfl

set_option maxRecDepth 1000000 in
set_option maxHeartbeats 4000000 in
/-- Witness for C6: a fully populated day (288 rows exactly on the grid)
passes through `fill_missing_data_by_gap` unchanged. -/
theorem c6_fill_idempotent_on_complete_day_witness :
    fill_missing_data_by_gap 0
        ((List.range 288).map fun i => ⟨300 * (i : Int), some 50, 0, false, "A"⟩)
      = some ((List.range 288).map fun i => ⟨300 * (i : Int), some 50, 0, false, "A"⟩) :=
  c6_fill_idempotent_on_complete_day 0 _ (by with_unfolding_all decide)

set_option maxRecDepth 1000000 in
/-- C4 counterexample: with a Reading immediately preceding the day (at
timestamp `-300`, temperature `100`) and a single in-day Reading at noon
(timestamp `43200`, temperature `50`) — a gap far above the claimed 6-hour
threshold (`43200 - (-300) > 21600`) — the available-point set built by
`fill_missing_data_by_gap` contains only the in-day point `43200`: no
boundary anchor is added, and the midnight slot is flat-filled with `50`
from the in-day point instead of being interpolated toward the preceding
Reading's `100` (which would give `99.7`).  The source function (gdd.py
lines 956-1030) selects only the day's own rows, computes no maximum-gap
statistic and invokes no secondary-source fetch. -/
theorem c4_counterexample :
    (buildAvailable 0 (dayRows 0
          [⟨-300, some 100, 0, false, "A"⟩, ⟨43200, some 50, 0, false, "A"⟩])).map Prod.fst
        = [43200]
      ∧ ((fill_missing_data_by_gap 0
            [⟨-300, some 100, 0, false, "A"⟩, ⟨43200, some 50, 0, false, "A"⟩]).bind
          fun res => (lookupStore res 0).map Reading.tempf) = some (some 50)
      ∧ (21600 : Int) < 43200 - (-300)
      ∧ (50 : ℚ) ≠ pyRound1 (100 + ((0 : ℚ) - (-300)) / ((43200 : ℚ) - (-300)) * (50 - 100)) := by
  refine ⟨by with_unfolding_all decide, by with_unfolding_all decide, by norm_num,
    by with_unfolding_all decide⟩

/-- C4 (amended): for every day being filled, the available-point set of
`fill_missing_data_by_gap` consists exactly of the snapped grid timestamps
of the day's **own** Readings — no boundary anchor from the Reading
preceding or following the day is added, no maximum-gap statistic is
computed, and the Secondary-Source historical fetch is never invoked by
this operation; missing slots are settled directly from this set. -/
theorem c4_available_points_day_only (dayStart : Int) (store : List Reading) (p : Int) :
    (alookup (buildAvailable dayStart (dayRows dayStart store)) p).isSome ↔
      ∃ r ∈ store, (dayStart ≤ r.dateutc ∧ r.dateutc < dayStart + 86400)
        ∧ snap dayStart r.dateutc = p := by
  rw [buildAvailable_isSome_iff]
  constructor
  · rintro ⟨r, hr, hp⟩
    have hmem := List.mem_filter.mp hr
    refine ⟨r, hmem.1, ?_, hp⟩
    simpa using hmem.2
  · rintro ⟨r, hr, hcond, hp⟩
    exact ⟨r, List.mem_filter.mpr ⟨hr, by simpa using hcond⟩, hp⟩

theorem buildAvailable_length_le (dayStart : Int) (rows : List Reading)
    (acc : List (Int × Option ℚ)) :
    acc.length ≤ (rows.foldl
      (fun acc r =>
        let s := snap dayStart r.dateutc
        if (alookup acc s).isSome then acc else acc ++ [(s, r.tempf)]) acc).length := by
  induction rows generalizing acc with
  | nil => exact le_refl _
  | cons r rs ih =>
    rw [List.foldl_cons]
    refine le_trans ?_ (ih _)
    by_cases hs : (alookup acc (snap dayStart r.dateutc)).isSome
    · simp [hs]
    · simp [hs]

theorem buildAvailable_ne_nil (dayStart : Int) (rows : List Reading) (h : rows ≠ []) :
    buildAvailable dayStart rows ≠ [] := by
  cases rows with
  | nil => exact absurd rfl h
  | cons r rs =>
    rw [buildAvailable, List.foldl_cons]
    intro hnil
    have hlen := buildAvailable_length_le dayStart rs
      (if (alookup [] (snap dayStart r.dateutc)).isSome then []
        else [] ++ [(snap dayStart r.dateutc, r.tempf)])
    rw [hnil] at hlen
    simp [alookup] at hlen

theorem getTemp_of_mem_keys (avail : List (Int × Option ℚ)) (q : Int)
    (hall : ∀ kv ∈ avail, kv.2.isSome) (hq : q ∈ avail.map Prod.fst) :
    ∃ t, getTemp avail q = some t := by
  have hsome := (alookup_isSome_iff_mem_keys avail q).mpr hq
  obtain ⟨v, hv⟩ := Option.isSome_iff_exists.mp hsome
  have hmem := alookup_eq_some_mem avail q v hv
  obtain ⟨t, ht⟩ := Option.isSome_iff_exists.mp (hall (q, v) hmem)
  refine ⟨t, ?_⟩
  rw [getTemp, hv, show v = some t from ht]
  rfl

theorem slotResult_val_of (avail : List (Int × Option ℚ)) (p : Int)
    (hnone : alookup avail p = none) (hne : avail ≠ [])
    (hall : ∀ kv ∈ avail, kv.2.isSome) :
    ∃ t, slotResult avail p = .val t := by
  have hkeysne : avail.map Prod.fst ≠ [] := by
    simpa using hne
  obtain ⟨k, hk⟩ := List.exists_mem_of_ne_nil _ hkeysne
  have hknep : k ≠ p := by
    intro hkp
    have := (alookup_isSome_iff_mem_keys avail p).mpr (hkp ▸ hk)
    rw [hnone] at this
    simp at this
  have hsidene : maxBelow (avail.map Prod.fst) p ≠ none
      ∨ minAbove (avail.map Prod.fst) p ≠ none := by
    rcases lt_or_gt_of_ne hknep with hlt | hgt
    · left
      rw [maxBelow, Ne, List.max?_eq_none_iff, List.filter_eq_nil_iff]
      push_neg
      exact ⟨k, hk, by simpa using hlt⟩
    · right
      rw [minAbove, Ne, List.min?_eq_none_iff, List.filter_eq_nil_iff]
      push_neg
      exact ⟨k, hk, by simpa using hgt⟩
  have hmb_mem : ∀ q, maxBelow (avail.map Prod.fst) p = some q → q ∈ avail.map Prod.fst := by
    intro q hq
    have := List.max?_mem max_choice hq
    exact (List.mem_filter.mp this).1
  have hma_mem : ∀ q, minAbove (avail.map Prod.fst) p = some q → q ∈ avail.map Prod.fst := by
    intro q hq
    have := List.min?_mem min_choice hq
    exact (List.mem_filter.mp this).1
  rw [slotResult]
  rw [if_neg (by simp [hnone])]
  simp only
  cases hmb : maxBelow (avail.map Prod.fst) p with
  | none =>
    cases hma : minAbove (avail.map Prod.fst) p with
    | none =>
      rcases hsidene with hc | hc
      · exact absurd hmb hc
      · exact absurd hma hc
    | some pn =>
      obtain ⟨tn, htn⟩ := getTemp_of_mem_keys avail pn hall (hma_mem pn hma)
      simp only [htn]
      exact ⟨tn, rfl⟩
  | some pp =>
    cases hma : minAbove (avail.map Prod.fst) p with
    | none =>
      obtain ⟨tp, htp⟩ := getTemp_of_mem_keys avail pp hall (hmb_mem pp hmb)
      simp only [htp]
      exact ⟨tp, rfl⟩
    | some pn =>
      obtain ⟨tp, htp⟩ := getTemp_of_mem_keys avail pp hall (hmb_mem pp hmb)
      obtain ⟨tn, htn⟩ := getTemp_of_mem_keys avail pn hall (hma_mem pn hma)
      simp only [htp, htn]
      exact ⟨interpValue pp pn p tp tn, rfl⟩

theorem fillInserts_total (avail : List (Int × Option ℚ))
    (hne : avail ≠ []) (hall : ∀ kv ∈ avail, kv.2.isSome) (points : List Int) :
    ∃ ins, fillInserts avail points = some ins
      ∧ ∀ p ∈ points, (alookup avail p).isSome ∨ p ∈ ins.map Prod.fst := by
  induction points with
  | nil => exact ⟨[], rfl, by simp⟩
  | cons p ps ih =>
    obtain ⟨ins, hins, hcov⟩ := ih
    by_cases hp : (alookup avail p).isSome
    · refine ⟨ins, ?_, ?_⟩
      · rw [fillInserts, slotResult_skip_of_isSome avail p hp, hins]
      · intro q hq
        rcases List.mem_cons.mp hq with rfl | hq
        · exact Or.inl hp
        · exact hcov q hq
    · obtain ⟨t, ht⟩ := slotResult_val_of avail p
        (Option.not_isSome_iff_eq_none.mp hp) hne hall
      refine ⟨(p, t) :: ins, ?_, ?_⟩
      · rw [fillInserts, ht, hins]
        rfl
      · intro q hq
        rcases List.mem_cons.mp hq with rfl | hq
        · exact Or.inr (by simp)
        · rcases hcov q hq with hav | hmem
          · exact Or.inl hav
          · exact Or.inr (by simp [hmem])

/-- C10: for a day with at least one stored Reading whose snapped
available-point values are all non-null (the first Reading snapped into each
populated slot has a usable temperature), `fill_missing_data_by_gap` is
total: the slot loop never reaches arithmetic (or log formatting) on a
`None` temperature — modelled by `fillInserts` returning `some` rather than
the crash value `none` — the operation completes, and afterwards every one
of the 288 grid slots is covered either by a snapped day Reading (an
available key) or by a newly inserted synthetic reading. -/
theorem c10_fill_total_and_complete (dayStart : Int) (store : List Reading)
    (h1 : dayRows dayStart store ≠ [])
    (h2 : ∀ kv ∈ buildAvailable dayStart (dayRows dayStart store), kv.2.isSome) :
    ∃ ins,
      fillInserts (buildAvailable dayStart (dayRows dayStart store))
          (expectedPoints dayStart) = some ins
        ∧ fill_missing_data_by_gap dayStart store = some (ins.foldl insertOrReplace store)
        ∧ ∀ p ∈ expectedPoints dayStart,
            (alookup (buildAvailable dayStart (dayRows dayStart store)) p).isSome
              ∨ p ∈ ins.map Prod.fst := by
  obtain ⟨ins, hins, hcov⟩ := fillInserts_total
    (buildAvailable dayStart (dayRows dayStart store))
    (buildAvailable_ne_nil dayStart _ h1) h2 (expectedPoints dayStart)
  refine ⟨ins, hins, ?_, hcov⟩
  unfold fill_missing_data_by_gap
  rw [if_neg h1]
  show (match fillInserts (buildAvailable dayStart (dayRows dayStart store))
      (expectedPoints dayStart) with
    | none => none
    | some ins => some (ins.foldl insertOrReplace store)) = some (ins.foldl insertOrReplace store)
  rw [hins]

/-- Witness for C10: a day holding a single midnight Reading at temperature
`60` is filled completely (the one available slot plus 287 synthetic flat
fills). -/
theorem c10_fill_total_and_complete_witness :
    ∃ ins,
      fillInserts (buildAvailable 0 (dayRows 0 [⟨0, some 60, 0, false, "A"⟩]))
          (expectedPoints 0) = some ins
        ∧ fill_missing_data_by_gap 0 [⟨0, some 60, 0, false, "A"⟩]
            = some (ins.foldl insertOrReplace [⟨0, some 60, 0, false, "A"⟩])
        ∧ ∀ p ∈ expectedPoints 0,
            (alookup (buildAvailable 0 (dayRows 0 [⟨0, some 60, 0, false, "A"⟩])) p).isSome
              ∨ p ∈ ins.map Prod.fst :=
  c10_fill_total_and_complete 0 [⟨0, some 60, 0, false, "A"⟩]
    (by with_unfolding_all decide) (by with_unfolding_all decide)

theorem lookupStore_eq_some (store : List Reading) (ts : Int) (r : Reading)
    (h : lookupStore store ts = some r) : r ∈ store ∧ r.dateutc = ts := by
  induction store with
  | nil => simp [lookupStore] at h
  | cons x rest ih =>
    by_cases hx : x.dateutc = ts
    · rw [lookupStore, if_pos hx] at h
      obtain rfl : x = r := Option.some.inj h
      exact ⟨List.mem_cons_self x rest, hx⟩
    · rw [lookupStore, if_neg hx] at h
      obtain ⟨hmem, hts⟩ := ih h
      exact ⟨List.mem_cons_of_mem x hmem, hts⟩

theorem lookupStore_append_single_ne (store : List Reading) (x : Reading) (ts : Int)
    (hne : x.dateutc ≠ ts) :
    lookupStore (store ++ [x]) ts = lookupStore store ts := by
  induction store with
  | nil => simp [lookupStore, if_neg hne]
  | cons y rest ih =>
    by_cases hy : y.dateutc = ts
    · simp [lookupStore, if_pos hy]
    · simp only [List.cons_append, lookupStore, if_neg hy]
      exact ih

theorem lookupStore_map_keyfix (store : List Reading) (p ts : Int)
    (g : Reading → Reading) (hg : ∀ r, (g r).dateutc = p) (hne : p ≠ ts) :
    lookupStore (store.map fun r => if r.dateutc = p then g r else r) ts
      = lookupStore store ts := by
  induction store with
  | nil => rfl
  | cons x rest ih =>
    rw [List.map_cons]
    by_cases hxp : x.dateutc = p
    · have hgne : (g x).dateutc ≠ ts := by rw [hg x]; exact hne
      have hxne : x.dateutc ≠ ts := by rw [hxp]; exact hne
      rw [if_pos hxp, lookupStore, if_neg hgne, lookupStore, if_neg hxne]
      exact ih
    · rw [if_neg hxp]
      by_cases hx : x.dateutc = ts
      · rw [lookupStore, if_pos hx, lookupStore, if_pos hx]
      · rw [lookupStore, if_neg hx, lookupStore, if_neg hx]
        exact ih

theorem lookupStore_insertOrReplace_ne (store : List Reading) (row : Int × ℚ) (ts : Int)
    (hne : row.1 ≠ ts) :
    lookupStore (insertOrReplace store row) ts = lookupStore store ts := by
  unfold insertOrReplace
  split_ifs with hany
  · exact lookupStore_map_keyfix store row.1 ts (fun _ => mkInterp row.1 row.2)
      (fun _ => rfl) hne
  · exact lookupStore_append_single_ne store _ ts hne

theorem lookupStore_foldl_insertOrReplace (ins : List (Int × ℚ)) (store : List Reading)
    (ts : Int) (h : ∀ row ∈ ins, row.1 ≠ ts) :
    lookupStore (ins.foldl insertOrReplace store) ts = lookupStore store ts := by
  induction ins generalizing store with
  | nil => rfl
  | cons row rest ih =>
    rw [List.foldl_cons, ih _ fun q hq => h q (List.mem_cons_of_mem row hq),
      lookupStore_insertOrReplace_ne store row ts (h row (List.mem_cons_self row rest))]

theorem fillInserts_mem (avail : List (Int × Option ℚ)) (points : List Int)
    (ins : List (Int × ℚ)) (h : fillInserts avail points = some ins) :
    ∀ row ∈ ins, row.1 ∈ points ∧ (alookup avail row.1).isSome = false := by
  induction points generalizing ins with
  | nil =>
    obtain rfl : ([] : List (Int × ℚ)) = ins := Option.some.inj h
    simp
  | cons p ps ih =>
    rw [fillInserts] at h
    cases hs : slotResult avail p with
    | skip =>
      rw [hs] at h
      intro row hrow
      obtain ⟨hp, hav⟩ := ih ins h row hrow
      exact ⟨List.mem_cons_of_mem p hp, hav⟩
    | crash => rw [hs] at h; exact absurd h (by simp)
    | val t =>
      rw [hs] at h
      obtain ⟨ins0, hins0, rfl⟩ := Option.map_eq_some'.mp h
      intro row hrow
      rcases List.mem_cons.mp hrow with rfl | hrow
      · refine ⟨List.mem_cons_self p ps, ?_⟩
        by_cases hp : (alookup avail p).isSome
        · rw [slotResult_skip_of_isSome avail p hp] at hs
          exact absurd hs (by simp)
        · simpa using hp
      · obtain ⟨hp, hav⟩ := ih ins0 hins0 row hrow
        exact ⟨List.mem_cons_of_mem p hp, hav⟩

theorem expectedPoints_mem_bounds (dayStart p : Int) (h : p ∈ expectedPoints dayStart) :
    dayStart ≤ p ∧ p < dayStart + 86400 ∧ snap dayStart p = p := by
  rw [expectedPoints] at h
  obtain ⟨i, hi, rfl⟩ := List.mem_map.mp h
  have hi288 : i < 288 := by simpa using hi
  have hi' : (i : Int) < 288 := by exact_mod_cast hi288
  have h0 : (0 : Int) ≤ (i : Int) := Int.natCast_nonneg i
  refine ⟨by omega, by omega, ?_⟩
  unfold snap
  omega

/-- C3: no operation of the pipeline overwrites a Reading whose temperature
is populated: (a) the interpolation engine — its synthetic `INSERT OR
REPLACE` rows land only on grid slots with no available value, which can
never carry an existing Reading's timestamp — leaves every stored Reading
with a non-null temperature untouched at its timestamp; (b) the
backup-station pass inserts only at absent timestamps and updates in place
only rows whose temperature is null, so it too preserves every populated
temperature. -/
theorem c3_never_overwrite_populated :
    (∀ (dayStart : Int) (store res : List Reading) (ts : Int) (r : Reading) (v : ℚ),
        fill_missing_data_by_gap dayStart store = some res →
        lookupStore store ts = some r → r.tempf = some v →
        lookupStore res ts = some r)
    ∧ (∀ (store : List Reading) (bs : List (Int × Option ℚ)) (ts : Int) (r : Reading) (v : ℚ),
        lookupStore store ts = some r → r.tempf = some v →
        lookupStore (backupMerge store bs) ts = some r) := by
  constructor
  · intro dayStart store res ts r v hfill hlook hv
    unfold fill_missing_data_by_gap at hfill
    by_cases hrows : dayRows dayStart store = []
    · rw [if_pos hrows] at hfill
      rw [← Option.some.inj hfill]
      exact hlook
    · rw [if_neg hrows] at hfill
      revert hfill
      show (match fillInserts (buildAvailable dayStart (dayRows dayStart store))
          (expectedPoints dayStart) with
        | none => none
        | some ins => some (ins.foldl insertOrReplace store)) = some res →
          lookupStore res ts = some r
      cases hfi : fillInserts (buildAvailable dayStart (dayRows dayStart store))
          (expectedPoints dayStart) with
      | none => intro hfill; exact absurd hfill (by simp)
      | some ins =>
        intro hfill
        rw [← Option.some.inj hfill]
        rw [lookupStore_foldl_insertOrReplace ins store ts ?_]
        · exact hlook
        intro row hrow hts
        obtain ⟨hpts, hav⟩ := fillInserts_mem _ _ ins hfi row hrow
        rw [hts] at hpts hav
        obtain ⟨hb1, hb2, hsnap⟩ := expectedPoints_mem_bounds dayStart ts hpts
        obtain ⟨hmem, hrts⟩ := lookupStore_eq_some store ts r hlook
        have hrday : r ∈ dayRows dayStart store :=
          List.mem_filter.mpr ⟨hmem, by simp [hrts, hb1, hb2]⟩
        have : (alookup (buildAvailable dayStart (dayRows dayStart store)) ts).isSome :=
          (buildAvailable_isSome_iff dayStart _ ts).mpr ⟨r, hrday, by rw [hrts, hsnap]⟩
        rw [hav] at this
        exact absurd this (by simp)
  · intro store bs ts r v hlook hv
    induction bs generalizing store with
    | nil => exact hlook
    | cons b rest ih =>
      rw [backupMerge, List.foldl_cons]
      refine ih (backupMergeOne store b) ?_
      cases hb : lookupStore store b.1 with
      | none =>
        have hne : b.1 ≠ ts := by
          intro hbts
          rw [hbts, hlook] at hb
          exact absurd hb (by simp)
        simp only [backupMergeOne, hb]
        rw [lookupStore_append_single_ne store _ ts hne]
        exact hlook
      | some r0 =>
        simp only [backupMergeOne, hb]
        by_cases h0 : r0.tempf = none
        · rw [if_pos h0]
          have hne : b.1 ≠ ts := by
            intro hbts
            rw [hbts, hlook] at hb
            have hrr : r = r0 := Option.some.inj hb
            rw [← hrr] at h0
            rw [h0] at hv
            exact absurd hv (by simp)
          rw [lookupStore_map_keyfix store b.1 ts _ (fun _ => rfl) hne]
          exact hlook
        · rw [if_neg h0]
          exact hlook

/-- Witness for C3: an empty-day store passes through the interpolation
engine with its populated Reading intact, and a backup reading at an
occupied timestamp does not displace the populated temperature there. -/
theorem c3_never_overwrite_populated_witness :
    lookupStore [⟨-300, some 60, 0, false, "A"⟩] (-300)
        = some ⟨-300, some 60, 0, false, "A"⟩
      ∧ lookupStore (backupMerge [⟨0, some 60, 0, false, "A"⟩] [(0, some 80)]) 0
        = some ⟨0, some 60, 0, false, "A"⟩ :=
  ⟨c3_never_overwrite_populated.1 0 [⟨-300, some 60, 0, false, "A"⟩]
      [⟨-300, some 60, 0, false, "A"⟩] (-300) ⟨-300, some 60, 0, false, "A"⟩ 60
      (by with_unfolding_all decide) (by with_unfolding_all decide) rfl,
    c3_never_overwrite_populated.2 [⟨0, some 60, 0, false, "A"⟩] [(0, some 80)] 0
      ⟨0, some 60, 0, false, "A"⟩ 60 (by with_unfolding_all decide) rfl⟩

theorem recalcRows_append (a : ℚ) (xs ys : List Reading) :
    recalcRows a (xs ++ ys) = recalcRows a xs ++ recalcRows (accAfter a xs) ys := by
  induction xs generalizing a with
  | nil => simp [recalcRows, accAfter]
  | cons r rs ih =>
    rw [List.cons_append]
    cases ht : r.tempf with
    | none =>
      simp only [recalcRows, ht, accAfter]
      rw [ih, List.cons_append]
    | some t =>
      simp only [recalcRows, ht, accAfter]
      rw [ih, List.cons_append]

theorem sorted_split_le_lt (k : Int) (rows : List Reading)
    (hs : rows.Pairwise fun a b => a.dateutc < b.dateutc) :
    rows = (rows.filter fun r => r.dateutc ≤ k) ++ (rows.filter fun r => k < r.dateutc) := by
  induction rows with
  | nil => rfl
  | cons r rs ih =>
    obtain ⟨hhead, htail⟩ := List.pairwise_cons.mp hs
    by_cases hr : r.dateutc ≤ k
    · have h1 : decide (r.dateutc ≤ k) = true := decide_eq_true hr
      have h2 : decide (k < r.dateutc) = false := decide_eq_false (not_lt.mpr hr)
      simp only [List.filter_cons, h1, h2, if_true, if_false, Bool.false_eq_true,
        List.cons_append]
      exact congrArg (r :: ·) (ih htail)
    · push_neg at hr
      have h1 : decide (r.dateutc ≤ k) = false := decide_eq_false (not_le.mpr hr)
      have h2 : decide (k < r.dateutc) = true := decide_eq_true hr
      have hnil : rs.filter (fun x => decide (x.dateutc ≤ k)) = [] := by
        rw [List.filter_eq_nil_iff]
        intro x hx
        have := hhead x hx
        simp only [decide_eq_true_eq]
        omega
      have hself : rs.filter (fun x => decide (k < x.dateutc)) = rs := by
        rw [List.filter_eq_self]
        intro x hx
        have := hhead x hx
        simp only [decide_eq_true_eq]
        omega
      simp only [List.filter_cons, h1, h2, if_true, if_false, Bool.false_eq_true,
        hnil, hself, List.nil_append]

set_option maxRecDepth 100000 in
/-- C1 counterexample: the claim's checkpoint-correctness hypothesis is
satisfiable by a store in which the checkpoint is a **null-temperature** row
carrying a stale positive `gdd` (5): a from-zero pass skips such a row
without rewriting it, so "the stored cumulative values up to the checkpoint
equal those a from-zero pass would produce" holds, yet the incremental pass
seeds the running sum with the stale 5 while the full pass reaches the last
row with only `gddIncrement 80 = 25/432` — the final cumulative values
differ. -/
theorem c1_counterexample :
    (([⟨1, some 80, 25/432, false, "A"⟩, ⟨2, none, 5, false, "A"⟩,
        ⟨3, some 60, 0, false, "A"⟩] : List Reading).Pairwise
      fun a b => a.dateutc < b.dateutc)
      ∧ checkpoint [⟨1, some 80, 25/432, false, "A"⟩, ⟨2, none, 5, false, "A"⟩,
          ⟨3, some 60, 0, false, "A"⟩] = some ⟨2, none, 5, false, "A"⟩
      ∧ ([⟨1, some 80, 25/432, false, "A"⟩, ⟨2, none, 5, false, "A"⟩,
          ⟨3, some 60, 0, false, "A"⟩].filter fun r => r.dateutc ≤ 2)
        = recalcRows 0 ([⟨1, some 80, 25/432, false, "A"⟩, ⟨2, none, 5, false, "A"⟩,
          ⟨3, some 60, 0, false, "A"⟩].filter fun r => r.dateutc ≤ 2)
      ∧ recalc_gdd false [⟨1, some 80, 25/432, false, "A"⟩, ⟨2, none, 5, false, "A"⟩,
          ⟨3, some 60, 0, false, "A"⟩]
        ≠ recalc_gdd true [⟨1, some 80, 25/432, false, "A"⟩, ⟨2, none, 5, false, "A"⟩,
          ⟨3, some 60, 0, false, "A"⟩] := by
  with_unfolding_all decide

/-- C1 (amended): incremental recalculation resuming from the checkpoint —
the highest-timestamp row with a positive stored `cumulative_gdd` — agrees
with a full from-zero recalculation on every Reading of the year, provided
the stored rows up to the checkpoint equal those a from-zero pass would
produce over them **and** the checkpoint row's stored `cumulative_gdd`
equals the from-zero running sum after processing all rows up to the
checkpoint (equivalently, the checkpoint must not be a skipped row holding
a stale positive value). -/
theorem c1_incremental_eq_full (rows : List Reading)
    (hsort : rows.Pairwise fun a b => a.dateutc < b.dateutc)
    (hpre : ∀ c, checkpoint rows = some c →
      (rows.filter fun r => r.dateutc ≤ c.dateutc)
        = recalcRows 0 (rows.filter fun r => r.dateutc ≤ c.dateutc))
    (hcp : ∀ c, checkpoint rows = some c →
      c.gdd = accAfter 0 (rows.filter fun r => r.dateutc ≤ c.dateutc)) :
    recalc_gdd false rows = recalc_gdd true rows := by
  rw [recalc_gdd, recalc_gdd, if_pos rfl, if_neg (by simp)]
  cases hc : checkpoint rows with
  | none => rfl
  | some c =>
    show (rows.filter fun r => r.dateutc ≤ c.dateutc)
        ++ recalcRows c.gdd (rows.filter fun r => c.dateutc < r.dateutc)
      = recalcRows 0 rows
    calc
      (rows.filter fun r => r.dateutc ≤ c.dateutc)
          ++ recalcRows c.gdd (rows.filter fun r => c.dateutc < r.dateutc)
        = recalcRows 0 (rows.filter fun r => r.dateutc ≤ c.dateutc)
            ++ recalcRows (accAfter 0 (rows.filter fun r => r.dateutc ≤ c.dateutc))
              (rows.filter fun r => c.dateutc < r.dateutc) := by
          rw [← hpre c hc, ← hcp c hc]
      _ = recalcRows 0 ((rows.filter fun r => r.dateutc ≤ c.dateutc)
            ++ (rows.filter fun r => c.dateutc < r.dateutc)) :=
          (recalcRows_append 0 _ _).symm
      _ = recalcRows 0 rows := by rw [← sorted_split_le_lt c.dateutc rows hsort]

/-- Witness for C1 (amended): a two-row year whose first row is a correct
checkpoint (its stored `gdd` is exactly `gddIncrement 80 = 25/432`); the
incremental and full recalculations agree. -/
theorem c1_incremental_eq_full_witness :
    recalc_gdd false [⟨1, some 80, 25/432, false, "A"⟩, ⟨2, some 60, 0, false, "A"⟩]
      = recalc_gdd true [⟨1, some 80, 25/432, false, "A"⟩, ⟨2, some 60, 0, false, "A"⟩] := by
  have hck : checkpoint [⟨1, some 80, 25/432, false, "A"⟩, ⟨2, some 60, 0, false, "A"⟩]
      = some ⟨1, some 80, 25/432, false, "A"⟩ := by
    with_unfolding_all decide
  refine c1_incremental_eq_full _ (by with_unfolding_all decide) ?_ ?_
  · intro c hc
    rw [hck] at hc
    obtain rfl : (⟨1, some 80, 25/432, false, "A"⟩ : Reading) = c := Option.some.inj hc
    with_unfolding_all decide
  · intro c hc
    rw [hck] at hc
    obtain rfl : (⟨1, some 80, 25/432, false, "A"⟩ : Reading) = c := Option.some.inj hc
    with_unfolding_all decide

end GddPipeline
